import Mathlib

/-!
Shallow embedding of the `rudeboy-derive` proc-macro crate
(`src/lib.rs`, `src/metamethods.rs`, `src/methods.rs`, `src/user_data.rs`).

The crate inspects `syn` syntax trees and emits token streams.  We embed the
fragments of the `syn` AST the crate inspects (struct/enum data, field lists,
function signatures, nested-meta attribute arguments) and model each
`impl_*_macro` function as a Lean function from that AST to either a
generation error (one constructor per distinct `compile_error!` site of the
source) or a structured description of the emitted adapter code (dispatch
entries, registration calls, field-name comparison chains).  The runtime
behaviour of an emitted index dispatcher (the chain of string comparisons the
`quote!` block unrolls over the field names) is embedded as an executable
lookup function.
-/

namespace Rudeboy

/-- The shapes of `syn::Fields`: named fields (`{ a: T, ... }`, idents in
declaration order), unnamed/positional fields (`(T, U)`, only the arity
matters to the crate), or a unit struct. -/
inductive Fields where
  | named (names : List String)
  | unnamed (arity : Nat)
  | unit
deriving DecidableEq, Repr

/-- `syn::Fields::is_empty`: no fields at all. -/
def Fields.is_empty : Fields → Bool
  | .named ns => ns.isEmpty
  | .unnamed n => n == 0
  | .unit => true

/-- The `syn::Data` alternatives of a `DeriveInput` that the crate
distinguishes: `Data::Struct` (with its fields) versus everything else
(`Data::Enum`, `Data::Union`). -/
inductive Data where
  | structData (fields : Fields)
  | enumData
  | unionData
deriving DecidableEq, Repr

/-- The part of `syn::DeriveInput` the crate reads: the type name and its
data. -/
structure DeriveInput where
  ident : String
  data : Data
deriving DecidableEq, Repr

/-- One constructor per distinct `compile_error!` site in the source files. -/
inductive GenError where
  | indexStructsOnly
  | indexNamedFieldsOnly
  | mmIndexStructsOnly
  | mmIndexNamedFieldsOnly
  | invalidMetamethodIdent
  | metamethodsItemKind
  | typedReceiver
  | classLevelMethod
  | movesSelf
  | zeroParameters
  | expectedIdentifier
  | expectedTypedArgument
  | methodsImplOnly
  | userDataItemKind
  | invalidUserDataIdent
  | userDataNonPathAttr
deriving DecidableEq, Repr

/-- The diagnostic text each error site passes to `compile_error!`
(`compiler_error!` in the source for `expectedIdentifier`). -/
def GenError.message : GenError → String
  | .indexStructsOnly => "RudeboyIndex macros can only be applied to structs"
  | .indexNamedFieldsOnly => "RudeboyIndex macros can only be applied to structs with named fields"
  | .mmIndexStructsOnly => "Index metamethod can only be applied to structs"
  | .mmIndexNamedFieldsOnly => "Index metamethod can only be applied to structs with named fields"
  | .invalidMetamethodIdent => "Expected a valid metamethod identifier"
  | .metamethodsItemKind => "metamethods can only be applied to structs and enums"
  | .typedReceiver => "Cannot currently handle typed receivers (i.e., a receiver other than &self or &mut self)"
  | .classLevelMethod => "Cannot currently handle class level methods"
  | .movesSelf => "Cannot add a method that moves self"
  | .zeroParameters => "Unexpected method with zero parameters"
  | .expectedIdentifier => "Expected an identifier here. This is probably a bug."
  | .expectedTypedArgument => "Expected a typed argument of the form 'ident: Type'. This is a bug."
  | .methodsImplOnly => "Methods macro can only be applied to an inherent impl block"
  | .userDataItemKind => "user_data macro can only be applied to a struct or an inherent impl block"
  | .invalidUserDataIdent => "Expected a valid metamethod identifier"
  | .userDataNonPathAttr => "Expected a valid user_data identifier"

/-- `fields.iter().map(|f| f.ident.as_ref().unwrap())`: the declared field
names in declaration order (only reached for named fields in the source). -/
def struct_field_names : Fields → List String
  | .named ns => ns
  | .unnamed _ => []
  | .unit => []

/-- What a generated `generate_index` body does: the list of
`add_meta_method(MetaMethod::Index, ...)` registrations it performs, each
carrying the field-name comparison chain its closure unrolls. -/
structure IndexImpl where
  registrations : List (List String)
deriving DecidableEq, Repr

/-- `impl_index_macro` (`src/lib.rs` lines 10-75, minus the optional
`UserData` impl): reject non-structs, then reject fields that are not named
or are empty (the `bad_struct` flag), otherwise emit a `generate_index` that
registers one Index dispatcher over the declared field names. -/
def impl_index_gen (ast : DeriveInput) : Except GenError IndexImpl :=
  match ast.data with
  | .structData fields =>
    let bad0 : Bool := match fields with | .named _ => false | _ => true
    let bad : Bool := if fields.is_empty then true else bad0
    if bad then .error .indexNamedFieldsOnly
    else .ok ⟨[struct_field_names fields]⟩
  | _ => .error .indexStructsOnly

/-- `impl_no_index_macro` (`src/lib.rs` lines 77-85): the generated
`generate_index` has an empty body, so it performs no registrations. -/
def impl_no_index_gen (_ast : DeriveInput) : IndexImpl := ⟨[]⟩

/-- Runtime behaviour of the emitted dispatcher closure: compare the key
against each field name in declaration order, short-circuit on the first
match and return that field's (cloned, Lua-converted) value, otherwise fail
with the `"No such index: {}"` error.  Cloning and `to_lua` conversion are
value-preserving, so they are modelled as the identity on `V`. -/
def index_dispatch {V : Type} (fieldNames : List String) (record : String → V)
    (key : String) : Except String V :=
  match fieldNames with
  | [] => .error ("No such index: " ++ key)
  | f :: rest => if key = f then .ok (record f) else index_dispatch rest record key

/-- What the host observes when indexing a userdata value: a found field
value, the generated dispatcher's error message, or — when the type
registered no Index metamethod at all — the host's own failure, which is not
produced by any generated code. -/
inductive LookupResult (V : Type) where
  | found (v : V)
  | dispatchError (msg : String)
  | noIndexMetamethod
deriving DecidableEq, Repr

/-- Indexing through a generated `generate_index`: if it registered a
dispatcher, run its comparison chain; if it registered nothing, the host
reports the absence of an Index metamethod itself. -/
def IndexImpl.lookup {V : Type} (impl : IndexImpl) (record : String → V)
    (key : String) : LookupResult V :=
  match impl.registrations with
  | [] => .noIndexMetamethod
  | names :: _ =>
    match index_dispatch names record key with
    | .ok v => .found v
    | .error m => .dispatchError m

theorem index_dispatch_mem {V : Type} (record : String → V) :
    ∀ (ns : List String) (key : String), key ∈ ns →
      index_dispatch ns record key = .ok (record key) := by
  intro ns
  induction ns with
  | nil => intro key h; cases h
  | cons f rest ih =>
    intro key h
    by_cases hk : key = f
    · subst hk; simp [index_dispatch]
    · rcases List.mem_cons.mp h with h' | h'
      · exact absurd h' hk
      · simp [index_dispatch, hk, ih key h']

theorem index_dispatch_not_mem {V : Type} (record : String → V) :
    ∀ (ns : List String) (key : String), key ∉ ns →
      index_dispatch ns record key = .error ("No such index: " ++ key) := by
  intro ns
  induction ns with
  | nil => intro key _; rfl
  | cons f rest ih =>
    intro key h
    have hk : key ≠ f := fun e => h (e ▸ List.mem_cons_self f rest)
    have hr : key ∉ rest := fun e => h (List.mem_cons_of_mem f e)
    simp [index_dispatch, hk, ih key hr]

/-- C1: for a struct with a non-empty, duplicate-free list of named fields,
the derive emits one index dispatcher over exactly those names in declaration
order; looking up any declared field name returns that field's value, and
looking up any other key fails with `No such index` carrying the key. -/
theorem index_macro_correct {V : Type} (tyName : String) (ns : List String)
    (record : String → V) (hne : ns ≠ []) (_hnd : ns.Nodup) :
    impl_index_gen ⟨tyName, .structData (.named ns)⟩ = .ok ⟨[ns]⟩ ∧
    (∀ key, key ∈ ns →
      (IndexImpl.mk [ns]).lookup record key = .found (record key)) ∧
    (∀ key, key ∉ ns →
      (IndexImpl.mk [ns]).lookup record key =
        .dispatchError ("No such index: " ++ key)) := by
  refine ⟨?_, ?_, ?_⟩
  · simp [impl_index_gen, Fields.is_empty, List.isEmpty_iff, hne, struct_field_names]
  · intro key hk
    simp [IndexImpl.lookup, index_dispatch_mem record ns key hk]
  · intro key hk
    simp [IndexImpl.lookup, index_dispatch_not_mem record ns key hk]

/-- Witness for C1 at the spec's own example shape `{x, y}`. -/
theorem index_macro_correct_witness :
    (["x", "y"] : List String) ≠ [] ∧
    (impl_index_gen ⟨"P", .structData (.named ["x", "y"])⟩ =
        .ok ⟨[["x", "y"]]⟩ ∧
      (∀ key, key ∈ (["x", "y"] : List String) →
        (IndexImpl.mk [["x", "y"]]).lookup
          (fun s => s.length) key = .found key.length) ∧
      (∀ key, key ∉ (["x", "y"] : List String) →
        (IndexImpl.mk [["x", "y"]]).lookup (fun s => s.length) key =
          .dispatchError ("No such index: " ++ key))) :=
  ⟨by decide, index_macro_correct "P" ["x", "y"] (fun s => s.length)
    (by decide) (by decide)⟩

/-- The crate's internal `MetaMethod` enum (`src/metamethods.rs` lines
31-49). -/
inductive MetaMethod where
  | Add | Eq | Index | Sub | Mul | Div | Mod | Unm
  | BAnd | BOr | BXor | BNot | Shl | Shr | Lt | Le
deriving DecidableEq, Repr

instance : Fintype MetaMethod :=
  ⟨⟨{.Add, .Eq, .Index, .Sub, .Mul, .Div, .Mod, .Unm,
     .BAnd, .BOr, .BXor, .BNot, .Shl, .Shr, .Lt, .Le}, by decide⟩,
   by intro x; cases x <;> decide⟩

/-- `MetaMethod::try_parse` (`src/metamethods.rs` lines 69-108): the chain of
`path.is_ident(...)` comparisons, in source order. -/
def MetaMethod.try_parse (path : String) : Except GenError MetaMethod :=
  if path = "Add" then .ok .Add
  else if path = "Eq" then .ok .Eq
  else if path = "Index" then .ok .Index
  else if path = "Sub" then .ok .Sub
  else if path = "Mul" then .ok .Mul
  else if path = "Div" then .ok .Div
  else if path = "Mod" then .ok .Mod
  else if path = "Unm" then .ok .Unm
  else if path = "BAnd" then .ok .BAnd
  else if path = "BOr" then .ok .BOr
  else if path = "BXor" then .ok .BXor
  else if path = "BNot" then .ok .BNot
  else if path = "Shl" then .ok .Shl
  else if path = "Shr" then .ok .Shr
  else if path = "Lt" then .ok .Lt
  else if path = "Le" then .ok .Le
  else .error .invalidMetamethodIdent

/-- The identifier strings `try_parse` recognizes, in source order. -/
def recognized_idents : List String :=
  ["Add", "Eq", "Index", "Sub", "Mul", "Div", "Mod", "Unm",
   "BAnd", "BOr", "BXor", "BNot", "Shl", "Shr", "Lt", "Le"]

/-- The `rlua::MetaMethod` host tag a generated `add_meta_method` call passes
(the `#rlua_enum` argument of `operator_method` / `unary_operator_method` /
the Index emission). -/
inductive RluaTag where
  | Add | Eq | Index | Sub | Mul | Div | Mod | Unm
  | BAnd | BOr | BXor | BNot | Shl | Shr | Lt | Le
deriving DecidableEq, Repr

/-- What the closure handed to `add_meta_method` does: apply a native binary
operator to both operands, apply a native unary operator to the receiver, or
run the field-index comparison chain. -/
inductive Strategy where
  | binaryOp (op : String)
  | unaryOp (op : String)
  | indexOf (fieldNames : List String)
deriving DecidableEq, Repr

/-- One generated trait method of `RudeboyMetaMethods`: its function name,
the host tag it registers under, and its dispatch strategy. -/
structure MetaEntry where
  fnName : String
  tag : RluaTag
  strategy : Strategy
deriving DecidableEq, Repr

/-- `MetaMethod::get_method` (`src/metamethods.rs` lines 110-177): every
variant except `Index` unconditionally emits an operator wrapper via
`operator_method` / `unary_operator_method`; `Index` re-runs the
struct-with-named-nonempty-fields check of `impl_index_macro` against the
carrier type and either errors or emits the field-index dispatcher. -/
def MetaMethod.get_method (mm : MetaMethod) (ast : DeriveInput) :
    Except GenError MetaEntry :=
  match mm with
  | .Add => .ok ⟨"generate_add", .Add, .binaryOp "+"⟩
  | .Eq => .ok ⟨"generate_eq", .Eq, .binaryOp "=="⟩
  | .Index =>
    match ast.data with
    | .structData fields =>
      let bad0 : Bool := match fields with | .named _ => false | _ => true
      let bad : Bool := if fields.is_empty then true else bad0
      if bad then .error .mmIndexNamedFieldsOnly
      else .ok ⟨"generate_index", .Index, .indexOf (struct_field_names fields)⟩
    | _ => .error .mmIndexStructsOnly
  | .Sub => .ok ⟨"generate_sub", .Sub, .binaryOp "-"⟩
  | .Mul => .ok ⟨"generate_mul", .Mul, .binaryOp "*"⟩
  | .Div => .ok ⟨"generate_div", .Div, .binaryOp "/"⟩
  | .Mod => .ok ⟨"generate_mod", .Mod, .binaryOp "%"⟩
  | .Unm => .ok ⟨"generate_unm", .Unm, .unaryOp "-"⟩
  | .BAnd => .ok ⟨"generate_band", .BAnd, .binaryOp "&"⟩
  | .BOr => .ok ⟨"generate_bor", .BOr, .binaryOp "|"⟩
  | .BXor => .ok ⟨"generate_bxor", .BXor, .binaryOp "^"⟩
  | .BNot => .ok ⟨"generate_bnot", .BNot, .unaryOp "!"⟩
  | .Shl => .ok ⟨"generate_shl", .Shl, .binaryOp "<<"⟩
  | .Shr => .ok ⟨"generate_shr", .Shr, .binaryOp ">>"⟩
  | .Lt => .ok ⟨"generate_lt", .Lt, .binaryOp "<"⟩
  | .Le => .ok ⟨"generate_le", .Le, .binaryOp "<="⟩

/-- The host tag each `MetaMethod` variant always registers under (proved to
agree with `get_method` in `get_method_tag`). -/
def mm_tag : MetaMethod → RluaTag
  | .Add => .Add
  | .Eq => .Eq
  | .Index => .Index
  | .Sub => .Sub
  | .Mul => .Mul
  | .Div => .Div
  | .Mod => .Mod
  | .Unm => .Unm
  | .BAnd => .BAnd
  | .BOr => .BOr
  | .BXor => .BXor
  | .BNot => .BNot
  | .Shl => .Shl
  | .Shr => .Shr
  | .Lt => .Lt
  | .Le => .Le

/-- The `syn::NestedMeta` attribute arguments the crate distinguishes: a bare
path (an identifier) versus anything else (literals, name-value pairs). -/
inductive NestedMeta where
  | path (ident : String)
  | other
deriving DecidableEq, Repr

/-- `HashSet::insert` modelled on a duplicate-free list: already-present
elements are dropped (Rust set semantics; iteration order of the real
`HashSet` is arbitrary, so only order-insensitive facts are proved about
results built from this). -/
def insert_set {α : Type} [DecidableEq α] (s : List α) (a : α) : List α :=
  if a ∈ s then s else s ++ [a]

/-- The shared loop shape of `attrs_to_metamethods` and
`attrs_to_user_data_attrs`: each nested meta must be a bare path accepted by
`parse`; accepted values are inserted into the set, any failure aborts the
whole fold. -/
def attrs_fold {α : Type} [DecidableEq α] (parse : String → Except GenError α)
    (badAttr : GenError) :
    List NestedMeta → List α → Except GenError (List α)
  | [], acc => .ok acc
  | .path p :: rest, acc =>
    match parse p with
    | .ok a => attrs_fold parse badAttr rest (insert_set acc a)
    | .error e => .error e
  | .other :: _, _ => .error badAttr

/-- `attrs_to_metamethods` (`src/metamethods.rs` lines 180-197). -/
def attrs_to_metamethods (attrs : List NestedMeta) :
    Except GenError (List MetaMethod) :=
  attrs_fold MetaMethod.try_parse .invalidMetamethodIdent attrs []

/-- Parameter patterns the method extractor distinguishes
(`syn::Pat::Ident` versus anything else). -/
inductive Pat where
  | identPat (name : String)
  | otherPat
deriving DecidableEq, Repr

/-- `syn::FnArg`: a receiver (`self` / `&self` / `&mut self`, with its
`reference` and `mutability` flags) or a typed argument `pat: Type`. -/
inductive FnArg where
  | receiverArg (reference : Bool) (mutability : Bool)
  | typedArg (pat : Pat) (ty : String)
deriving DecidableEq, Repr

/-- The part of `syn::Signature` the extractor reads. -/
structure Signature where
  ident : String
  inputs : List FnArg
deriving DecidableEq, Repr

/-- The items of an impl block the extractor distinguishes:
`ImplItem::Method` (carrying its signature) versus everything else, which the
loop skips. -/
inductive ImplItem where
  | methodItem (sig : Signature)
  | otherImplItem
deriving DecidableEq, Repr

/-- The items the attribute macros can be placed on. -/
inductive Item where
  | structItem (ident : String) (fields : Fields)
  | enumItem (ident : String)
  | implItem (selfTy : String) (items : List ImplItem)
  | otherItem
deriving DecidableEq, Repr

/-- `impl_metamethods_attr_macro`'s item match (`src/metamethods.rs` lines
203-212): structs and enums convert to a `DeriveInput`, anything else is
rejected. -/
def Item.to_derive_input : Item → Option DeriveInput
  | .structItem n fs => some ⟨n, .structData fs⟩
  | .enumItem n => some ⟨n, .enumData⟩
  | _ => none

instance {ε α : Type} [DecidableEq ε] [DecidableEq α] :
    DecidableEq (Except ε α) := fun a b =>
  match a, b with
  | .ok x, .ok y =>
    if h : x = y then isTrue (by rw [h])
    else isFalse (by intro hh; cases hh; exact h rfl)
  | .error x, .error y =>
    if h : x = y then isTrue (by rw [h])
    else isFalse (by intro hh; cases hh; exact h rfl)
  | .ok _, .error _ => isFalse (by intro hh; cases hh)
  | .error _, .ok _ => isFalse (by intro hh; cases hh)

/-- The token stream `impl_metamethods_attr_macro` emits on the non-early-
return path: for each metamethod of the set, either its generated trait
method or the `compile_error!` its `get_method` produced, spliced inline
into the `RudeboyMetaMethods` impl. -/
structure MetaMethodsOutput where
  results : List (Except GenError MetaEntry)
deriving DecidableEq, Repr

/-- `impl_metamethods_attr_macro` (`src/metamethods.rs` lines 199-229):
reject non-struct/enum items; parse the attribute list into a set; map each
requested metamethod through `get_method`, splicing the per-metamethod
results (entries or inline errors) into the emitted impl. -/
def impl_metamethods_attr_gen (item : Item) (attrs : List NestedMeta) :
    Except GenError MetaMethodsOutput :=
  match item.to_derive_input with
  | none => .error .metamethodsItemKind
  | some di =>
    match attrs_to_metamethods attrs with
    | .error e => .error e
    | .ok mms => .ok ⟨mms.map (fun mm => mm.get_method di)⟩

def except_ok {ε α : Type} : Except ε α → Bool
  | .ok _ => true
  | .error _ => false

/-- Rust semantics of `compile_error!`: an error anywhere in the macro's
expansion (an early return or an inline error token) aborts the build, so
adapter code reaches the host only when the expansion contains no error. -/
def compiled_meta (r : Except GenError MetaMethodsOutput) :
    Option (List MetaEntry) :=
  match r with
  | .error _ => none
  | .ok o =>
    if o.results.all except_ok then some (o.results.filterMap Except.toOption)
    else none

/-- The shape both index generators accept: a struct whose fields are named
and non-empty. -/
def valid_index_shape (ast : DeriveInput) : Bool :=
  match ast.data with
  | .structData (.named ns) => !ns.isEmpty
  | _ => false

/-- Which of the two `impl_index_macro` diagnostics an invalid shape hits:
non-structs fail the outer match, every invalid struct (empty or unnamed
fields alike) fails the `bad_struct` check. -/
def index_shape_error : Data → GenError
  | .structData _ => .indexNamedFieldsOnly
  | _ => .indexStructsOnly

/-- Same partition for the `Index` metamethod arm of `get_method`. -/
def mm_index_shape_error : Data → GenError
  | .structData _ => .mmIndexNamedFieldsOnly
  | _ => .mmIndexStructsOnly

theorem impl_index_gen_invalid (ast : DeriveInput)
    (h : valid_index_shape ast = false) :
    impl_index_gen ast = .error (index_shape_error ast.data) := by
  rcases ast with ⟨n, d⟩
  cases d with
  | structData fields =>
    cases fields with
    | named ns =>
      simp only [valid_index_shape, Bool.not_eq_false'] at h
      simp [impl_index_gen, Fields.is_empty, h, index_shape_error]
    | unnamed k =>
      by_cases hk : k = 0 <;>
        simp [impl_index_gen, Fields.is_empty, hk, index_shape_error]
    | unit => simp [impl_index_gen, Fields.is_empty, index_shape_error]
  | enumData => rfl
  | unionData => rfl

theorem get_method_index_invalid (ast : DeriveInput)
    (h : valid_index_shape ast = false) :
    MetaMethod.get_method .Index ast = .error (mm_index_shape_error ast.data) := by
  rcases ast with ⟨n, d⟩
  cases d with
  | structData fields =>
    cases fields with
    | named ns =>
      simp only [valid_index_shape, Bool.not_eq_false'] at h
      simp [MetaMethod.get_method, Fields.is_empty, h, mm_index_shape_error]
    | unnamed k =>
      by_cases hk : k = 0 <;>
        simp [MetaMethod.get_method, Fields.is_empty, hk, mm_index_shape_error]
    | unit => simp [MetaMethod.get_method, Fields.is_empty, mm_index_shape_error]
  | enumData => rfl
  | unionData => rfl

/-- C4 counterexample: the claim assigns a zero-field record a dedicated
`EmptyShape` error distinct from the `UnsupportedShape` of anonymous-field
records and non-records.  In the code, a zero-field struct and a
positional-field struct hit the very same diagnostic (the `bad_struct`
branch), and it is the non-struct case that gets a different one — on both
the index surface and the Index-metamethod surface. -/
theorem index_empty_shape_not_distinct :
    impl_index_gen ⟨"A", .structData (.named [])⟩ =
      impl_index_gen ⟨"B", .structData (.unnamed 2)⟩ ∧
    impl_index_gen ⟨"A", .structData (.named [])⟩ ≠
      impl_index_gen ⟨"C", .enumData⟩ ∧
    MetaMethod.get_method .Index ⟨"A", .structData (.named [])⟩ =
      MetaMethod.get_method .Index ⟨"B", .structData (.unnamed 2)⟩ ∧
    MetaMethod.get_method .Index ⟨"A", .structData (.named [])⟩ ≠
      MetaMethod.get_method .Index ⟨"C", .enumData⟩ := by
  refine ⟨rfl, ?_, rfl, ?_⟩ <;> decide

/-- C4 amended: every declaration that is not a record with non-empty named
fields makes index generation and Index-metamethod generation fail and
produce no dispatcher; non-record kinds fail with the structs-only
diagnostic, while zero-field and anonymous-field records both fail with the
single structs-with-named-fields diagnostic (the code draws no
`EmptyShape`/`UnsupportedShape` distinction between those two). -/
theorem index_generation_rejects_invalid (ast : DeriveInput)
    (h : valid_index_shape ast = false) :
    impl_index_gen ast = .error (index_shape_error ast.data) ∧
    MetaMethod.get_method .Index ast = .error (mm_index_shape_error ast.data) ∧
    (∀ impl, impl_index_gen ast ≠ .ok impl) ∧
    (∀ e, MetaMethod.get_method .Index ast ≠ .ok e) := by
  refine ⟨impl_index_gen_invalid ast h, get_method_index_invalid ast h, ?_, ?_⟩
  · intro impl hc
    rw [impl_index_gen_invalid ast h] at hc
    cases hc
  · intro e hc
    rw [get_method_index_invalid ast h] at hc
    cases hc

/-- Witness for the amended C4 at an enumeration and the error value it
yields there. -/
theorem index_generation_rejects_invalid_witness :
    valid_index_shape ⟨"E", .enumData⟩ = false ∧
    (impl_index_gen ⟨"E", .enumData⟩ =
        .error (index_shape_error Data.enumData) ∧
      MetaMethod.get_method .Index ⟨"E", .enumData⟩ =
        .error (mm_index_shape_error Data.enumData) ∧
      (∀ impl, impl_index_gen ⟨"E", .enumData⟩ ≠ .ok impl) ∧
      (∀ e, MetaMethod.get_method .Index ⟨"E", .enumData⟩ ≠ .ok e)) :=
  ⟨rfl, index_generation_rejects_invalid ⟨"E", .enumData⟩ rfl⟩

/-- C7 counterexample: for a type deriving `NoIndex`, looking up a key does
not fail with the generated `No such index` error — the generated
`generate_index` registered nothing, so the host reports the absence of an
Index metamethod instead. -/
theorem no_index_lookup_not_no_such_index :
    (impl_no_index_gen ⟨"S", .structData (.named ["x"])⟩).lookup
        (fun _ => (0 : Nat)) "x" = .noIndexMetamethod ∧
    (impl_no_index_gen ⟨"S", .structData (.named ["x"])⟩).lookup
        (fun _ => (0 : Nat)) "x" ≠
      .dispatchError ("No such index: " ++ "x") := by
  exact ⟨rfl, by decide⟩

/-- C7 amended: the `NoIndex` derive emits a `generate_index` with an empty
body: it registers no index dispatcher at all, so no key ever matches (no
lookup can return a field value), and a miss surfaces as the host's own
missing-metamethod failure rather than a generated `NoSuchIndex` error. -/
theorem no_index_macro_registers_nothing {V : Type} (ast : DeriveInput)
    (record : String → V) (key : String) :
    impl_no_index_gen ast = ⟨[]⟩ ∧
    (impl_no_index_gen ast).lookup record key = .noIndexMetamethod ∧
    (∀ v, (impl_no_index_gen ast).lookup record key ≠ .found v) ∧
    (∀ m, (impl_no_index_gen ast).lookup record key ≠ .dispatchError m) := by
  refine ⟨rfl, rfl, ?_, ?_⟩
  · intro v hc; cases hc
  · intro m hc; cases hc

theorem mem_insert_set {α : Type} [DecidableEq α] (s : List α) (a b : α) :
    a ∈ insert_set s b ↔ a = b ∨ a ∈ s := by
  unfold insert_set
  by_cases h : b ∈ s
  · simp only [h, if_true]
    constructor
    · exact Or.inr
    · rintro (rfl | h'); exacts [h, h']
  · simp [h, List.mem_append, or_comm]

theorem insert_set_nodup {α : Type} [DecidableEq α] (s : List α) (a : α)
    (h : s.Nodup) : (insert_set s a).Nodup := by
  unfold insert_set
  by_cases ha : a ∈ s
  · simpa [ha]
  · simp only [ha, if_false]
    exact h.append (List.nodup_singleton a)
      (List.disjoint_singleton.mpr ha)

theorem attrs_fold_ok_nodup {α : Type} [DecidableEq α]
    (parse : String → Except GenError α) (badAttr : GenError) :
    ∀ (attrs : List NestedMeta) (acc s : List α), acc.Nodup →
      attrs_fold parse badAttr attrs acc = .ok s → s.Nodup := by
  intro attrs
  induction attrs with
  | nil =>
    intro acc s h hs
    simp only [attrs_fold] at hs
    cases Except.ok.inj hs
    exact h
  | cons a rest ih =>
    intro acc s h hs
    cases a with
    | path p =>
      simp only [attrs_fold] at hs
      cases hp : parse p with
      | ok x => rw [hp] at hs; exact ih _ _ (insert_set_nodup _ _ h) hs
      | error e => rw [hp] at hs; cases hs
    | other => cases hs

theorem attrs_fold_mem {α : Type} [DecidableEq α]
    (parse : String → Except GenError α) (badAttr : GenError) (a : α) :
    ∀ (attrs : List NestedMeta) (acc s : List α),
      attrs_fold parse badAttr attrs acc = .ok s →
      (a ∈ s ↔ a ∈ acc ∨
        ∃ p, NestedMeta.path p ∈ attrs ∧ parse p = .ok a) := by
  intro attrs
  induction attrs with
  | nil =>
    intro acc s hs
    simp only [attrs_fold] at hs
    cases Except.ok.inj hs
    simp
  | cons x rest ih =>
    intro acc s hs
    cases x with
    | path p =>
      simp only [attrs_fold] at hs
      cases hp : parse p with
      | ok b =>
        rw [hp] at hs
        rw [ih _ _ hs]
        constructor
        · rintro (hmem | ⟨q, hq, hqa⟩)
          · rcases (mem_insert_set acc a b).mp hmem with rfl | h'
            · exact Or.inr ⟨p, by simp, hp⟩
            · exact Or.inl h'
          · exact Or.inr ⟨q, by simp [hq], hqa⟩
        · rintro (hacc | ⟨q, hq, hqa⟩)
          · exact Or.inl ((mem_insert_set acc a b).mpr (Or.inr hacc))
          · rcases List.mem_cons.mp hq with hq' | hq'
            · cases hq'
              rw [hp] at hqa
              exact Or.inl ((mem_insert_set acc a b).mpr
                (Or.inl (Except.ok.inj hqa).symm))
            · exact Or.inr ⟨q, hq', hqa⟩
      | error e => rw [hp] at hs; cases hs
    | other => cases hs

theorem attrs_fold_paths_ok {α : Type} [DecidableEq α]
    (parse : String → Except GenError α) (badAttr : GenError) (q : String) :
    ∀ (attrs : List NestedMeta) (acc s : List α),
      attrs_fold parse badAttr attrs acc = .ok s →
      NestedMeta.path q ∈ attrs → ∃ a, parse q = .ok a := by
  intro attrs
  induction attrs with
  | nil => intro acc s _ hq; cases hq
  | cons x rest ih =>
    intro acc s hs hq
    cases x with
    | path p =>
      simp only [attrs_fold] at hs
      cases hp : parse p with
      | ok b =>
        rw [hp] at hs
        rcases List.mem_cons.mp hq with hq' | hq'
        · cases hq'; exact ⟨b, hp⟩
        · exact ih _ _ hs hq'
      | error e => rw [hp] at hs; cases hs
    | other => cases hs

/-- The canonical identifier of each `MetaMethod` variant (the `*_IDENT`
constants of `src/metamethods.rs`). -/
def mm_ident : MetaMethod → String
  | .Add => "Add"
  | .Eq => "Eq"
  | .Index => "Index"
  | .Sub => "Sub"
  | .Mul => "Mul"
  | .Div => "Div"
  | .Mod => "Mod"
  | .Unm => "Unm"
  | .BAnd => "BAnd"
  | .BOr => "BOr"
  | .BXor => "BXor"
  | .BNot => "BNot"
  | .Shl => "Shl"
  | .Shr => "Shr"
  | .Lt => "Lt"
  | .Le => "Le"

theorem try_parse_mm_ident (mm : MetaMethod) :
    MetaMethod.try_parse (mm_ident mm) = .ok mm := by
  cases mm <;> rfl

theorem try_parse_ok_eq (p : String) (mm : MetaMethod)
    (h : MetaMethod.try_parse p = .ok mm) : p = mm_ident mm := by
  unfold MetaMethod.try_parse at h
  by_cases c1 : p = "Add"
  · rw [if_pos c1] at h; cases Except.ok.inj h; exact c1
  rw [if_neg c1] at h
  by_cases c2 : p = "Eq"
  · rw [if_pos c2] at h; cases Except.ok.inj h; exact c2
  rw [if_neg c2] at h
  by_cases c3 : p = "Index"
  · rw [if_pos c3] at h; cases Except.ok.inj h; exact c3
  rw [if_neg c3] at h
  by_cases c4 : p = "Sub"
  · rw [if_pos c4] at h; cases Except.ok.inj h; exact c4
  rw [if_neg c4] at h
  by_cases c5 : p = "Mul"
  · rw [if_pos c5] at h; cases Except.ok.inj h; exact c5
  rw [if_neg c5] at h
  by_cases c6 : p = "Div"
  · rw [if_pos c6] at h; cases Except.ok.inj h; exact c6
  rw [if_neg c6] at h
  by_cases c7 : p = "Mod"
  · rw [if_pos c7] at h; cases Except.ok.inj h; exact c7
  rw [if_neg c7] at h
  by_cases c8 : p = "Unm"
  · rw [if_pos c8] at h; cases Except.ok.inj h; exact c8
  rw [if_neg c8] at h
  by_cases c9 : p = "BAnd"
  · rw [if_pos c9] at h; cases Except.ok.inj h; exact c9
  rw [if_neg c9] at h
  by_cases c10 : p = "BOr"
  · rw [if_pos c10] at h; cases Except.ok.inj h; exact c10
  rw [if_neg c10] at h
  by_cases c11 : p = "BXor"
  · rw [if_pos c11] at h; cases Except.ok.inj h; exact c11
  rw [if_neg c11] at h
  by_cases c12 : p = "BNot"
  · rw [if_pos c12] at h; cases Except.ok.inj h; exact c12
  rw [if_neg c12] at h
  by_cases c13 : p = "Shl"
  · rw [if_pos c13] at h; cases Except.ok.inj h; exact c13
  rw [if_neg c13] at h
  by_cases c14 : p = "Shr"
  · rw [if_pos c14] at h; cases Except.ok.inj h; exact c14
  rw [if_neg c14] at h
  by_cases c15 : p = "Lt"
  · rw [if_pos c15] at h; cases Except.ok.inj h; exact c15
  rw [if_neg c15] at h
  by_cases c16 : p = "Le"
  · rw [if_pos c16] at h; cases Except.ok.inj h; exact c16
  rw [if_neg c16] at h
  cases h

theorem try_parse_ok_iff (s : String) :
    (∃ mm, MetaMethod.try_parse s = .ok mm) ↔ s ∈ recognized_idents := by
  constructor
  · rintro ⟨mm, h⟩
    rw [try_parse_ok_eq s mm h]
    cases mm <;> simp [mm_ident, recognized_idents]
  · intro h
    simp only [recognized_idents, List.mem_cons, List.not_mem_nil, or_false] at h
    rcases h with rfl | rfl | rfl | rfl | rfl | rfl | rfl | rfl | rfl | rfl |
      rfl | rfl | rfl | rfl | rfl | rfl <;> exact ⟨_, rfl⟩

theorem mm_tag_injective : Function.Injective mm_tag := by
  intro a b
  cases a <;> cases b <;> simp_all [mm_tag]

theorem get_method_tag (mm : MetaMethod) (ast : DeriveInput) (e : MetaEntry)
    (h : mm.get_method ast = .ok e) : e.tag = mm_tag mm := by
  cases mm
  case Index =>
    rcases ast with ⟨n, d⟩
    cases d with
    | structData fields =>
      cases fields with
      | named ns =>
        by_cases hns : ns.isEmpty
        · simp [MetaMethod.get_method, Fields.is_empty, hns] at h
        · simp [MetaMethod.get_method, Fields.is_empty, hns] at h
          subst h
          rfl
      | unnamed k => simp [MetaMethod.get_method, Fields.is_empty] at h
      | unit => simp [MetaMethod.get_method, Fields.is_empty] at h
    | enumData => cases h
    | unionData => cases h
  all_goals (cases Except.ok.inj h; rfl)

theorem get_method_ok_of_ne_index (mm : MetaMethod) (hmm : mm ≠ .Index)
    (ast : DeriveInput) :
    ∃ e, mm.get_method ast = .ok e ∧
      ((∃ op, e.strategy = .binaryOp op) ∨ (∃ op, e.strategy = .unaryOp op)) := by
  cases mm <;>
    first
      | exact absurd rfl hmm
      | exact ⟨_, rfl, Or.inl ⟨_, rfl⟩⟩
      | exact ⟨_, rfl, Or.inr ⟨_, rfl⟩⟩

theorem get_method_ok_valid (mm : MetaMethod) (tyName : String)
    (ns : List String) (hne : ns ≠ []) :
    ∃ e, mm.get_method ⟨tyName, .structData (.named ns)⟩ = .ok e := by
  cases mm
  case Index =>
    refine ⟨⟨"generate_index", .Index, .indexOf ns⟩, ?_⟩
    simp [MetaMethod.get_method, Fields.is_empty, List.isEmpty_iff, hne,
      struct_field_names]
  all_goals exact ⟨_, rfl⟩

theorem map_except_all_ok {α β : Type} (f : α → Except GenError β) :
    ∀ l : List α, (∀ x ∈ l, ∃ e, f x = .ok e) →
      (l.map f).all except_ok = true ∧
      ((l.map f).filterMap Except.toOption).length = l.length ∧
      (∀ x ∈ l, ∃ e, f x = .ok e ∧
        e ∈ (l.map f).filterMap Except.toOption) := by
  intro l
  induction l with
  | nil =>
    intro _
    refine ⟨rfl, rfl, ?_⟩
    intro x hx
    cases hx
  | cons x rest ih =>
    intro h
    obtain ⟨e, he⟩ := h x (List.mem_cons_self x rest)
    obtain ⟨hall, hlen, hmem⟩ := ih (fun y hy => h y (List.mem_cons_of_mem x hy))
    have hfm : ((x :: rest).map f).filterMap Except.toOption =
        e :: (rest.map f).filterMap Except.toOption := by
      simp [he, Except.toOption]
    refine ⟨?_, ?_, ?_⟩
    · rw [List.map_cons, List.all_cons, he, hall]
      rfl
    · rw [hfm, List.length_cons, List.length_cons, hlen]
    · intro y hy
      rcases List.mem_cons.mp hy with rfl | hy'
      · exact ⟨e, he, by rw [hfm]; exact List.mem_cons_self e _⟩
      · obtain ⟨e', he', hmem'⟩ := hmem y hy'
        exact ⟨e', he', by rw [hfm]; exact List.mem_cons_of_mem e hmem'⟩

theorem countP_filterMap_tags (di : DeriveInput) (t : RluaTag) :
    ∀ mms : List MetaMethod, (∀ mm ∈ mms, ∃ e, mm.get_method di = .ok e) →
      ((mms.map (fun mm => mm.get_method di)).filterMap Except.toOption).countP
          (fun e => decide (e.tag = t)) =
        mms.countP (fun mm => decide (mm_tag mm = t)) := by
  intro mms
  induction mms with
  | nil => intro _; rfl
  | cons mm rest ih =>
    intro h
    obtain ⟨e, he⟩ := h mm (List.mem_cons_self mm rest)
    have hrest := ih (fun m hm => h m (List.mem_cons_of_mem _ hm))
    have htag := get_method_tag mm di e he
    have hsome : Except.toOption (mm.get_method di) = some e := by
      rw [he]; rfl
    simp only [List.map_cons]
    rw [List.filterMap_cons_some hsome, List.countP_cons,
      List.countP_cons, hrest, htag]

theorem countP_tag_nodup (t : RluaTag) :
    ∀ mms : List MetaMethod, mms.Nodup →
      mms.countP (fun mm => decide (mm_tag mm = t)) =
        if ∃ mm ∈ mms, mm_tag mm = t then 1 else 0 := by
  intro mms
  induction mms with
  | nil => intro _; simp
  | cons m rest ih =>
    intro hnd
    have hm : m ∉ rest := (List.nodup_cons.mp hnd).1
    have hnd' : rest.Nodup := (List.nodup_cons.mp hnd).2
    rw [List.countP_cons, ih hnd']
    by_cases ht : mm_tag m = t
    · have hrest0 : ¬ ∃ mm ∈ rest, mm_tag mm = t := by
        rintro ⟨mm, hmm, htag⟩
        exact hm (by rwa [mm_tag_injective (htag.trans ht.symm)] at hmm)
      have hcons : ∃ mm ∈ m :: rest, mm_tag mm = t :=
        ⟨m, List.mem_cons_self m rest, ht⟩
      rw [if_neg hrest0, if_pos hcons]
      simp [ht]
    · by_cases hex : ∃ mm ∈ rest, mm_tag mm = t
      · have hcons : ∃ mm ∈ m :: rest, mm_tag mm = t := by
          obtain ⟨mm, hmm, htag⟩ := hex
          exact ⟨mm, List.mem_cons_of_mem m hmm, htag⟩
        rw [if_pos hex, if_pos hcons]
        simp [ht]
      · have hcons : ¬ ∃ mm ∈ m :: rest, mm_tag mm = t := by
          rintro ⟨mm, hmm, htag⟩
          rcases List.mem_cons.mp hmm with rfl | hmm'
          · exact ht htag
          · exact hex ⟨mm, hmm', htag⟩
        rw [if_neg hex, if_neg hcons]
        simp [ht]

theorem attrs_to_metamethods_mem (attrs : List NestedMeta)
    (mms : List MetaMethod) (h : attrs_to_metamethods attrs = .ok mms)
    (mm : MetaMethod) :
    mm ∈ mms ↔ ∃ p, NestedMeta.path p ∈ attrs ∧
      MetaMethod.try_parse p = .ok mm := by
  have hm := attrs_fold_mem MetaMethod.try_parse .invalidMetamethodIdent mm
    attrs [] mms h
  simpa using hm

theorem attrs_to_metamethods_nodup (attrs : List NestedMeta)
    (mms : List MetaMethod) (h : attrs_to_metamethods attrs = .ok mms) :
    mms.Nodup :=
  attrs_fold_ok_nodup MetaMethod.try_parse .invalidMetamethodIdent attrs []
    mms List.nodup_nil h

theorem compiled_meta_none_of_error (o : MetaMethodsOutput) (e : GenError)
    (h : Except.error e ∈ o.results) : compiled_meta (.ok o) = none := by
  have hall : o.results.all except_ok = false := by
    cases hb : o.results.all except_ok
    · rfl
    · have := List.all_eq_true.mp hb _ h
      simp [except_ok] at this
  simp [compiled_meta, hall]

/-- C2: the operator catalog recognizes exactly the 16 identifiers; each
recognized identifier, requested any number of times (duplicates collapse by
set semantics), yields exactly one dispatch entry under the host tag unique
to it, and no other recognized identifier maps to that tag. -/
theorem metamethod_catalog_correct :
    (∀ s : String,
      (∃ mm, MetaMethod.try_parse s = .ok mm) ↔ s ∈ recognized_idents) ∧
    recognized_idents.length = 16 ∧
    recognized_idents.Nodup ∧
    (∀ p q mm mm', MetaMethod.try_parse p = .ok mm →
      MetaMethod.try_parse q = .ok mm' → mm_tag mm = mm_tag mm' → p = q) ∧
    (∀ (tyName : String) (ns : List String) (attrs : List NestedMeta)
        (mms : List MetaMethod), ns ≠ [] →
      attrs_to_metamethods attrs = .ok mms →
      ∃ es, compiled_meta (impl_metamethods_attr_gen
          (.structItem tyName (.named ns)) attrs) = some es ∧
        (∀ p mm, MetaMethod.try_parse p = .ok mm →
          (NestedMeta.path p ∈ attrs ↔ mm ∈ mms)) ∧
        (∀ mm, mm ∈ mms →
          es.countP (fun e => decide (e.tag = mm_tag mm)) = 1) ∧
        (∀ mm, mm ∉ mms →
          es.countP (fun e => decide (e.tag = mm_tag mm)) = 0)) := by
  refine ⟨try_parse_ok_iff, rfl, by decide, ?_, ?_⟩
  · intro p q mm mm' hp hq htag
    rw [try_parse_ok_eq p mm hp, try_parse_ok_eq q mm' hq,
      mm_tag_injective htag]
  · intro tyName ns attrs mms hne hattrs
    have di : DeriveInput := ⟨tyName, .structData (.named ns)⟩
    have hok : ∀ mm ∈ mms, ∃ e,
        mm.get_method ⟨tyName, .structData (.named ns)⟩ = .ok e :=
      fun mm _ => get_method_ok_valid mm tyName ns hne
    obtain ⟨hall, _, _⟩ :=
      map_except_all_ok (fun mm => mm.get_method ⟨tyName, .structData (.named ns)⟩)
        mms hok
    have hgen : impl_metamethods_attr_gen (.structItem tyName (.named ns))
        attrs = .ok ⟨mms.map (fun mm =>
          mm.get_method ⟨tyName, .structData (.named ns)⟩)⟩ := by
      simp [impl_metamethods_attr_gen, Item.to_derive_input,
        attrs_to_metamethods] at hattrs ⊢
      rw [hattrs]
    refine ⟨(mms.map (fun mm =>
        mm.get_method ⟨tyName, .structData (.named ns)⟩)).filterMap
          Except.toOption, ?_, ?_, ?_, ?_⟩
    · rw [hgen]
      simp [compiled_meta, hall]
    · intro p mm hp
      rw [attrs_to_metamethods_mem attrs mms hattrs mm]
      constructor
      · intro hin; exact ⟨p, hin, hp⟩
      · rintro ⟨q, hq, hq'⟩
        rw [try_parse_ok_eq p mm hp, ← try_parse_ok_eq q mm hq']
        exact hq
    · intro mm hmm
      rw [countP_filterMap_tags _ _ mms hok,
        countP_tag_nodup _ mms (attrs_to_metamethods_nodup attrs mms hattrs),
        if_pos ⟨mm, hmm, rfl⟩]
    · intro mm hmm
      rw [countP_filterMap_tags _ _ mms hok,
        countP_tag_nodup _ mms (attrs_to_metamethods_nodup attrs mms hattrs),
        if_neg]
      rintro ⟨mm', hmm', htag⟩
      exact hmm (by rwa [← mm_tag_injective htag])

/-- Witness for C2: requesting `Add` twice and `Unm` once on a valid record
compiles to entries with exactly one `Add`-tagged and one `Unm`-tagged
entry and no `Eq`-tagged entry. -/
theorem metamethod_catalog_correct_witness :
    (["x"] : List String) ≠ [] ∧
    attrs_to_metamethods [.path "Add", .path "Add", .path "Unm"] =
      .ok [.Add, .Unm] ∧
    (∃ es, compiled_meta (impl_metamethods_attr_gen
        (.structItem "P" (.named ["x"]))
        [.path "Add", .path "Add", .path "Unm"]) = some es ∧
      (∀ p mm, MetaMethod.try_parse p = .ok mm →
        (NestedMeta.path p ∈
            ([.path "Add", .path "Add", .path "Unm"] : List NestedMeta) ↔
          mm ∈ ([.Add, .Unm] : List MetaMethod))) ∧
      (∀ mm, mm ∈ ([.Add, .Unm] : List MetaMethod) →
        es.countP (fun e => decide (e.tag = mm_tag mm)) = 1) ∧
      (∀ mm, mm ∉ ([.Add, .Unm] : List MetaMethod) →
        es.countP (fun e => decide (e.tag = mm_tag mm)) = 0)) :=
  ⟨by decide, by decide,
    metamethod_catalog_correct.2.2.2.2 "P" ["x"]
      [.path "Add", .path "Add", .path "Unm"] [.Add, .Unm]
      (by decide) (by decide)⟩

/-- The item shapes whose converted `DeriveInput` passes the Index shape
check of `get_method`. -/
def valid_record_item : Item → Bool
  | .structItem _ (.named ns) => !ns.isEmpty
  | _ => false

theorem valid_index_shape_struct (n : String) (fs : Fields) :
    valid_index_shape ⟨n, .structData fs⟩ = valid_record_item (.structItem n fs) := by
  cases fs <;> rfl

/-- C6: a generation-time failure in the metamethods macro is terminal — the
emitted stream carries a `compile_error!`, so no adapter code compiles for
the declaration, with no partial emission surviving; in particular,
requesting `Index` on a carrier that is not a record with named non-empty
fields aborts with the shape error even though the request came from the
metamethod surface. -/
theorem metamethods_failure_terminal :
    (∀ (item : Item) (attrs : List NestedMeta),
      valid_record_item item = false → NestedMeta.path "Index" ∈ attrs →
      compiled_meta (impl_metamethods_attr_gen item attrs) = none) ∧
    (∀ (n : String) (attrs : List NestedMeta) (mms : List MetaMethod),
      attrs_to_metamethods attrs = .ok mms → MetaMethod.Index ∈ mms →
      impl_metamethods_attr_gen (.enumItem n) attrs =
        .ok ⟨mms.map (fun mm => mm.get_method ⟨n, .enumData⟩)⟩ ∧
      Except.error GenError.mmIndexStructsOnly ∈
        (mms.map (fun mm => mm.get_method ⟨n, .enumData⟩)) ∧
      compiled_meta (impl_metamethods_attr_gen (.enumItem n) attrs) = none) := by
  constructor
  · intro item attrs hshape hidx
    cases item with
    | structItem n fs =>
      cases hattrs : attrs_to_metamethods attrs with
      | error e =>
        simp [impl_metamethods_attr_gen, Item.to_derive_input,
          attrs_to_metamethods, compiled_meta] at hattrs ⊢
        rw [hattrs]
      | ok mms =>
        have hmem : MetaMethod.Index ∈ mms :=
          (attrs_to_metamethods_mem attrs mms hattrs .Index).mpr
            ⟨"Index", hidx, rfl⟩
        have herr : MetaMethod.get_method .Index ⟨n, .structData fs⟩ =
            .error (mm_index_shape_error (Data.structData fs)) :=
          get_method_index_invalid _ (by rw [valid_index_shape_struct]; exact hshape)
        have hgen : impl_metamethods_attr_gen (.structItem n fs) attrs =
            .ok ⟨mms.map (fun mm => mm.get_method ⟨n, .structData fs⟩)⟩ := by
          simp [impl_metamethods_attr_gen, Item.to_derive_input,
            attrs_to_metamethods] at hattrs ⊢
          rw [hattrs]
        rw [hgen]
        exact compiled_meta_none_of_error _ _
          (by rw [← herr]; exact List.mem_map_of_mem _ hmem)
    | enumItem n =>
      cases hattrs : attrs_to_metamethods attrs with
      | error e =>
        simp [impl_metamethods_attr_gen, Item.to_derive_input,
          attrs_to_metamethods, compiled_meta] at hattrs ⊢
        rw [hattrs]
      | ok mms =>
        have hmem : MetaMethod.Index ∈ mms :=
          (attrs_to_metamethods_mem attrs mms hattrs .Index).mpr
            ⟨"Index", hidx, rfl⟩
        have hgen : impl_metamethods_attr_gen (.enumItem n) attrs =
            .ok ⟨mms.map (fun mm => mm.get_method ⟨n, .enumData⟩)⟩ := by
          simp [impl_metamethods_attr_gen, Item.to_derive_input,
            attrs_to_metamethods] at hattrs ⊢
          rw [hattrs]
        rw [hgen]
        exact compiled_meta_none_of_error _ _
          (List.mem_map_of_mem (f := fun mm => mm.get_method ⟨n, .enumData⟩) hmem)
    | implItem selfTy items =>
      simp [impl_metamethods_attr_gen, Item.to_derive_input, compiled_meta]
    | otherItem =>
      simp [impl_metamethods_attr_gen, Item.to_derive_input, compiled_meta]
  · intro n attrs mms hattrs hmem
    have hgen : impl_metamethods_attr_gen (.enumItem n) attrs =
        .ok ⟨mms.map (fun mm => mm.get_method ⟨n, .enumData⟩)⟩ := by
      simp [impl_metamethods_attr_gen, Item.to_derive_input,
        attrs_to_metamethods] at hattrs ⊢
      rw [hattrs]
    have herr : Except.error GenError.mmIndexStructsOnly ∈
        (mms.map (fun mm => mm.get_method ⟨n, .enumData⟩)) :=
      List.mem_map_of_mem (f := fun mm => mm.get_method ⟨n, .enumData⟩) hmem
    refine ⟨hgen, herr, ?_⟩
    rw [hgen]
    exact compiled_meta_none_of_error _ _ herr

/-- Witness for C6 at an enumeration requesting `Index`. -/
theorem metamethods_failure_terminal_witness :
    compiled_meta (impl_metamethods_attr_gen (.enumItem "E")
      [.path "Index"]) = none :=
  metamethods_failure_terminal.1 (.enumItem "E") [.path "Index"] rfl
    (by decide)

/-- C10: the record-with-named-fields restriction applies only to the
`Index` metamethod: every other recognized operator emits its binary- or
unary-operator wrapper for any carrier, and an enumeration requesting any
set of non-`Index` metamethods compiles with one entry per requested
operator. -/
theorem metamethods_non_index_on_enums :
    (∀ mm : MetaMethod, mm ≠ .Index → ∀ ast : DeriveInput,
      ∃ e, mm.get_method ast = .ok e ∧
        ((∃ op, e.strategy = .binaryOp op) ∨
          (∃ op, e.strategy = .unaryOp op))) ∧
    (∀ (n : String) (attrs : List NestedMeta) (mms : List MetaMethod),
      attrs_to_metamethods attrs = .ok mms → MetaMethod.Index ∉ mms →
      ∃ es, compiled_meta (impl_metamethods_attr_gen (.enumItem n) attrs) =
          some es ∧
        es.length = mms.length ∧
        (∀ mm ∈ mms, ∃ e, mm.get_method ⟨n, .enumData⟩ = .ok e ∧ e ∈ es)) := by
  refine ⟨get_method_ok_of_ne_index, ?_⟩
  intro n attrs mms hattrs hnidx
  have hok : ∀ mm ∈ mms, ∃ e, mm.get_method ⟨n, .enumData⟩ = .ok e := by
    intro mm hmm
    obtain ⟨e, he, _⟩ := get_method_ok_of_ne_index mm
      (fun hc => hnidx (hc ▸ hmm)) ⟨n, .enumData⟩
    exact ⟨e, he⟩
  obtain ⟨hall, hlen, hmem⟩ :=
    map_except_all_ok (fun mm => mm.get_method ⟨n, .enumData⟩) mms hok
  have hgen : impl_metamethods_attr_gen (.enumItem n) attrs =
      .ok ⟨mms.map (fun mm => mm.get_method ⟨n, .enumData⟩)⟩ := by
    simp [impl_metamethods_attr_gen, Item.to_derive_input,
      attrs_to_metamethods] at hattrs ⊢
    rw [hattrs]
  refine ⟨(mms.map (fun mm => mm.get_method ⟨n, .enumData⟩)).filterMap
    Except.toOption, ?_, hlen, hmem⟩
  rw [hgen]
  simp [compiled_meta, hall]

/-- Witness for C10: an enumeration requesting `Add` compiles to exactly one
entry. -/
theorem metamethods_non_index_on_enums_witness :
    ∃ es, compiled_meta (impl_metamethods_attr_gen (.enumItem "E")
        [.path "Add"]) = some es ∧
      es.length = ([MetaMethod.Add] : List MetaMethod).length ∧
      (∀ mm ∈ ([MetaMethod.Add] : List MetaMethod),
        ∃ e, mm.get_method ⟨"E", .enumData⟩ = .ok e ∧ e ∈ es) :=
  metamethods_non_index_on_enums.2 "E" [.path "Add"] [.Add] (by decide)
    (by decide)

/-- `syn::Signature::receiver`: inspects only the first input; returns it if
it is a `Receiver` (`self`/`&self`/`&mut self`) or a typed argument whose
pattern is the identifier `self` (arbitrary self types). -/
def Signature.receiver (s : Signature) : Option FnArg :=
  match s.inputs with
  | [] => none
  | arg :: _ =>
    match arg with
    | .receiverArg _ _ => some arg
    | .typedArg (.identPat n) _ => if n = "self" then some arg else none
    | .typedArg _ _ => none

/-- `get_name_and_type_from_fn_arg` (`src/methods.rs` lines 24-42 and
`src/lib.rs` lines 155-173): a typed argument with an identifier pattern
yields its name and type; any other pattern or a receiver is an error. -/
def get_name_and_type_from_fn_arg : FnArg → Except GenError (String × String)
  | .typedArg (.identPat n) ty => .ok (n, ty)
  | .typedArg _ _ => .error .expectedIdentifier
  | .receiverArg _ _ => .error .expectedTypedArgument

/-- The crate's `Params` enum: zero, one, or many extra parameters. -/
inductive Params where
  | noneP
  | oneP (name : String) (ty : String)
  | multiP (names : List String) (tys : List String)
deriving DecidableEq, Repr

/-- The crate's `MethodInfo` struct. -/
structure MethodInfo where
  name : String
  is_mut : Bool
  params : Params
deriving DecidableEq, Repr

/-- The `while let` loop of the `Multi` branch: run
`get_name_and_type_from_fn_arg` over each remaining input, pushing names and
types in order; the first failure aborts. -/
def collect_params : List FnArg → Except GenError (List String × List String)
  | [] => .ok ([], [])
  | a :: rest =>
    match get_name_and_type_from_fn_arg a with
    | .ok (n, t) =>
      match collect_params rest with
      | .ok (ns, ts) => .ok (n :: ns, t :: ts)
      | .error e => .error e
    | .error e => .error e

/-- The per-method body of the extraction loop (`src/methods.rs` lines
48-112, identical to `src/lib.rs` lines 179-243): receiver checks in source
order (missing receiver, typed receiver, by-value receiver), then the
`inputs_len` classification into `Params::None` / `One` / `Multi`. -/
def process_method (sig : Signature) : Except GenError MethodInfo :=
  match sig.receiver with
  | none => .error .classLevelMethod
  | some (.typedArg _ _) => .error .typedReceiver
  | some (.receiverArg reference mutability) =>
    if reference = false then .error .movesSelf
    else
      match sig.inputs with
      | [] => .error .zeroParameters
      | [_] => .ok ⟨sig.ident, mutability, .noneP⟩
      | [_, input] =>
        match get_name_and_type_from_fn_arg input with
        | .ok (n, t) => .ok ⟨sig.ident, mutability, .oneP n t⟩
        | .error e => .error e
      | _ :: rest =>
        match collect_params rest with
        | .ok (ns, ts) => .ok ⟨sig.ident, mutability, .multiP ns ts⟩
        | .error e => .error e

/-- The extraction loop: process each `ImplItem::Method`, skip other items,
abort the whole block on the first failing method. -/
def extract_methods : List ImplItem → Except GenError (List MethodInfo)
  | [] => .ok []
  | .methodItem sig :: rest =>
    match process_method sig with
    | .ok info =>
      match extract_methods rest with
      | .ok infos => .ok (info :: infos)
      | .error e => .error e
    | .error e => .error e
  | .otherImplItem :: rest => extract_methods rest

/-- The closure's argument pattern (`params_param`): `()`, `name : ty`, or a
typed tuple pattern over the declared names and types. -/
inductive ArgBinder where
  | unitBinder
  | singleBinder (name : String) (ty : String)
  | tupleBinder (names : List String) (tys : List String)
deriving DecidableEq, Repr

/-- One generated `add_method` / `add_method_mut` call: the string key
(`stringify!(name)`), the mutability of access it requires, the closure's
argument binder, and the argument names passed to the native call
(`method_params`). -/
structure MethodEntry where
  key : String
  mutating : Bool
  binder : ArgBinder
  callArgs : List String
deriving DecidableEq, Repr

/-- The emission map over collected `MethodInfo` (`src/methods.rs` lines
115-150): mutable receivers use `add_method_mut`, the binder and call
arguments follow the `Params` class. -/
def method_entry (m : MethodInfo) : MethodEntry :=
  { key := m.name
    mutating := m.is_mut
    binder :=
      match m.params with
      | .noneP => .unitBinder
      | .oneP n t => .singleBinder n t
      | .multiP ns ts => .tupleBinder ns ts
    callArgs :=
      match m.params with
      | .noneP => []
      | .oneP n _ => [n]
      | .multiP ns _ => ns }

/-- `implitem_methods_attr_macro` (`src/methods.rs` lines 44-162): extract
all methods (any failure is the whole output) and emit one dispatch entry
per collected method, in order. -/
def implitem_methods_attr_gen (items : List ImplItem) :
    Except GenError (List MethodEntry) :=
  match extract_methods items with
  | .ok infos => .ok (infos.map method_entry)
  | .error e => .error e

/-- How the generated closure's argument pattern consumes the script-side
argument values under rlua's `FromLuaMulti` conventions for the three
emitted patterns: a `()` pattern consumes nothing and ignores every supplied
value; `name : ty` binds the single supplied value under the declared name;
a tuple pattern binds exactly its arity positionally, name `i` to value `i`.
(Nil-filling of missing values by the host is outside this model.) -/
def ArgBinder.bind {V : Type} : ArgBinder → List V → Option (List (String × V))
  | .unitBinder, _ => some []
  | .singleBinder n _, [v] => some [(n, v)]
  | .singleBinder _ _, _ => none
  | .tupleBinder ns _, vs =>
    if vs.length = ns.length then some (ns.zip vs) else none

/-- The error the extraction of one method would produce, if any: the first
defective method of the block determines it. -/
def first_defect : List ImplItem → Option GenError
  | [] => none
  | .methodItem sig :: rest =>
    match process_method sig with
    | .error e => some e
    | .ok _ => first_defect rest
  | .otherImplItem :: rest => first_defect rest

theorem extract_methods_error (items : List ImplItem) (e : GenError)
    (h : first_defect items = some e) : extract_methods items = .error e := by
  induction items with
  | nil => cases h
  | cons item rest ih =>
    cases item with
    | methodItem sig =>
      simp only [first_defect] at h
      cases hp : process_method sig with
      | ok info =>
        rw [hp] at h
        simp only [extract_methods, hp]
        rw [ih h]
      | error e' =>
        rw [hp] at h
        cases Option.some.inj h
        simp only [extract_methods, hp]
    | otherImplItem =>
      simp only [first_defect] at h
      simp only [extract_methods]
      exact ih h

theorem first_defect_of_mem (items : List ImplItem) (sig : Signature)
    (e : GenError) (hmem : ImplItem.methodItem sig ∈ items)
    (he : process_method sig = .error e) : ∃ e', first_defect items = some e' := by
  induction items with
  | nil => cases hmem
  | cons item rest ih =>
    cases item with
    | methodItem sig' =>
      cases hp : process_method sig' with
      | ok info =>
        rcases List.mem_cons.mp hmem with hh | hh
        · cases hh; rw [hp] at he; cases he
        · obtain ⟨e', he'⟩ := ih hh
          exact ⟨e', by simp only [first_defect, hp]; exact he'⟩
      | error e' => exact ⟨e', by simp only [first_defect, hp]⟩
    | otherImplItem =>
      rcases List.mem_cons.mp hmem with hh | hh
      · cases hh
      · obtain ⟨e', he'⟩ := ih hh
        exact ⟨e', by simp only [first_defect]; exact he'⟩

theorem receiver_inv (sig : Signature) (r m : Bool)
    (h : sig.receiver = some (.receiverArg r m)) :
    ∃ tail, sig.inputs = .receiverArg r m :: tail := by
  rcases sig with ⟨name, inputs⟩
  cases inputs with
  | nil => cases h
  | cons arg tail =>
    cases arg with
    | receiverArg a b =>
      simp only [Signature.receiver] at h
      cases Option.some.inj h
      exact ⟨tail, rfl⟩
    | typedArg p ty =>
      cases p with
      | identPat n =>
        simp only [Signature.receiver] at h
        by_cases hn : n = "self"
        · rw [if_pos hn] at h; cases Option.some.inj h
        · rw [if_neg hn] at h; cases h
      | otherPat => cases h

theorem collect_params_bad :
    ∀ args : List FnArg,
      (∀ a ∈ args, ∃ p ty, a = FnArg.typedArg p ty) →
      (∃ ty, FnArg.typedArg .otherPat ty ∈ args) →
      collect_params args = .error .expectedIdentifier := by
  intro args
  induction args with
  | nil =>
    intro _ hbad
    obtain ⟨ty, hmem⟩ := hbad
    cases hmem
  | cons a rest ih =>
    intro hall hbad
    obtain ⟨p, ty, rfl⟩ := hall a (List.mem_cons_self a rest)
    cases p with
    | identPat n =>
      obtain ⟨ty', hmem⟩ := hbad
      rcases List.mem_cons.mp hmem with hh | hh
      · cases hh
      · have h2 := ih (fun b hb => hall b (List.mem_cons_of_mem _ hb)) ⟨ty', hh⟩
        simp [collect_params, get_name_and_type_from_fn_arg, h2]
    | otherPat =>
      simp [collect_params, get_name_and_type_from_fn_arg]

theorem get_name_ok_inv (a : FnArg) (n t : String)
    (h : get_name_and_type_from_fn_arg a = .ok (n, t)) :
    a = .typedArg (.identPat n) t := by
  rcases a with ⟨r, m⟩ | ⟨p, ty⟩
  · cases h
  · cases p with
    | identPat n' =>
      have h2 := Except.ok.inj h
      cases h2
      rfl
    | otherPat => cases h

theorem get_name_ne_zero (a : FnArg) :
    get_name_and_type_from_fn_arg a ≠ .error .zeroParameters := by
  rcases a with ⟨r, m⟩ | ⟨p, ty⟩
  · intro hc; cases Except.error.inj hc
  · cases p with
    | identPat n => intro hc; cases hc
    | otherPat => intro hc; cases Except.error.inj hc

theorem collect_params_ne_zero :
    ∀ args : List FnArg, collect_params args ≠ .error .zeroParameters := by
  intro args
  induction args with
  | nil => intro hc; cases hc
  | cons a rest ih =>
    intro hc
    cases hg : get_name_and_type_from_fn_arg a with
    | ok nt =>
      obtain ⟨n, t⟩ := nt
      cases hcp : collect_params rest with
      | ok nts =>
        obtain ⟨ns, ts⟩ := nts
        simp [collect_params, hg, hcp] at hc
      | error e =>
        simp [collect_params, hg, hcp] at hc
        exact ih (hc ▸ hcp)
    | error e =>
      simp [collect_params, hg] at hc
      exact get_name_ne_zero a (hc ▸ hg)

/-- The name an argument contributes to the generated binder, when it is a
typed argument with an identifier pattern. -/
def arg_name : FnArg → Option String
  | .typedArg (.identPat n) _ => some n
  | _ => none

/-- The type an argument contributes to the generated binder. -/
def arg_ty : FnArg → Option String
  | .typedArg _ ty => some ty
  | _ => none

theorem collect_params_ok :
    ∀ (args : List FnArg) (ns ts : List String),
      collect_params args = .ok (ns, ts) →
      ns = args.filterMap arg_name ∧ ts = args.filterMap arg_ty ∧
      ns.length = args.length ∧ ts.length = args.length := by
  intro args
  induction args with
  | nil =>
    intro ns ts h
    have h2 := Except.ok.inj h
    cases h2
    exact ⟨rfl, rfl, rfl, rfl⟩
  | cons a rest ih =>
    intro ns ts h
    cases hg : get_name_and_type_from_fn_arg a with
    | ok nt =>
      obtain ⟨n, t⟩ := nt
      cases hcp : collect_params rest with
      | ok nts =>
        obtain ⟨ns', ts'⟩ := nts
        simp [collect_params, hg, hcp] at h
        obtain ⟨hns, hts⟩ := h
        obtain ⟨hn1, ht1, hl1, hl2⟩ := ih ns' ts' hcp
        obtain rfl := get_name_ok_inv a n t hg
        subst hns
        subst hts
        refine ⟨?_, ?_, ?_, ?_⟩
        · simp [arg_name, hn1]
        · simp [arg_ty, ht1]
        · simp [hl1]
        · simp [hl2]
      | error e => simp [collect_params, hg, hcp] at h
    | error e => simp [collect_params, hg] at h

/-- C3: a method with a by-value receiver fails with the moves-self error, a
method with no receiver fails with the class-level-methods error, a method
whose extra parameter uses a non-identifier (destructuring) pattern fails
with the expected-identifier error; and any defective method makes the whole
impl block emit only that (first) error — no dispatch entry is emitted for
any method of the block, valid ones included. -/
theorem methods_block_validation :
    (∀ (sig : Signature) (m : Bool),
      sig.receiver = some (.receiverArg false m) →
      process_method sig = .error .movesSelf) ∧
    (∀ sig : Signature, sig.receiver = none →
      process_method sig = .error .classLevelMethod) ∧
    (∀ (sig : Signature) (m : Bool),
      sig.receiver = some (.receiverArg true m) →
      (∀ a ∈ sig.inputs.tail, ∃ p ty, a = FnArg.typedArg p ty) →
      (∃ ty, FnArg.typedArg .otherPat ty ∈ sig.inputs.tail) →
      process_method sig = .error .expectedIdentifier) ∧
    (∀ (items : List ImplItem) (e : GenError), first_defect items = some e →
      implitem_methods_attr_gen items = .error e) ∧
    (∀ (items : List ImplItem) (sig : Signature) (e : GenError),
      ImplItem.methodItem sig ∈ items → process_method sig = .error e →
      ∃ e', implitem_methods_attr_gen items = .error e') := by
  refine ⟨?_, ?_, ?_, ?_, ?_⟩
  · intro sig m h
    simp [process_method, h]
  · intro sig h
    simp [process_method, h]
  · intro sig m h hall hbad
    obtain ⟨tail, hinputs⟩ := receiver_inv sig true m h
    rw [hinputs] at hall hbad
    simp only [List.tail_cons] at hall hbad
    cases tail with
    | nil =>
      obtain ⟨ty, hmem⟩ := hbad
      cases hmem
    | cons a rest =>
      cases rest with
      | nil =>
        obtain ⟨ty, hmem⟩ := hbad
        rcases List.mem_cons.mp hmem with hh | hh
        · simp [process_method, h, hinputs, ← hh,
            get_name_and_type_from_fn_arg]
        · cases hh
      | cons b rest' =>
        have hcp := collect_params_bad (a :: b :: rest') hall hbad
        simp [process_method, h, hinputs, hcp]
  · intro items e h
    simp [implitem_methods_attr_gen, extract_methods_error items e h]
  · intro items sig e hmem he
    obtain ⟨e', he'⟩ := first_defect_of_mem items sig e hmem he
    exact ⟨e', by
      simp [implitem_methods_attr_gen, extract_methods_error items e' he']⟩

/-- Witness for C3: a block with a valid `length(&self)` followed by a
by-value `consume(self)` emits nothing but the moves-self error. -/
theorem methods_block_validation_witness :
    process_method ⟨"consume", [.receiverArg false false]⟩ =
      .error .movesSelf ∧
    implitem_methods_attr_gen
        [.methodItem ⟨"length", [.receiverArg true false]⟩,
         .methodItem ⟨"consume", [.receiverArg false false]⟩] =
      .error .movesSelf :=
  ⟨methods_block_validation.1 ⟨"consume", [.receiverArg false false]⟩
      false rfl,
    methods_block_validation.2.2.2.1
      [.methodItem ⟨"length", [.receiverArg true false]⟩,
       .methodItem ⟨"consume", [.receiverArg false false]⟩]
      .movesSelf rfl⟩

/-- C9: the zero-parameters diagnostic is unreachable: a signature whose
receiver lookup succeeds has the receiver as its first input, so the input
list has length at least one, and `process_method` can never return the
`Unexpected method with zero parameters` error. -/
theorem zero_parameters_unreachable :
    (∀ (sig : Signature) (r : FnArg), sig.receiver = some r →
      1 ≤ sig.inputs.length) ∧
    (∀ sig : Signature, process_method sig ≠ .error .zeroParameters) := by
  constructor
  · intro sig r h
    rcases sig with ⟨name, inputs⟩
    cases inputs with
    | nil => cases h
    | cons a tail => simp
  · intro sig hc
    cases hrec : sig.receiver with
    | none => simp [process_method, hrec] at hc
    | some arg =>
      cases arg with
      | typedArg p ty => simp [process_method, hrec] at hc
      | receiverArg r m =>
        cases r with
        | false => simp [process_method, hrec] at hc
        | true =>
          obtain ⟨tail, hinputs⟩ := receiver_inv sig true m hrec
          cases tail with
          | nil => simp [process_method, hrec, hinputs] at hc
          | cons a rest =>
            cases rest with
            | nil =>
              cases hg : get_name_and_type_from_fn_arg a with
              | ok nt =>
                obtain ⟨n, t⟩ := nt
                simp [process_method, hrec, hinputs, hg] at hc
              | error e =>
                simp [process_method, hrec, hinputs, hg] at hc
                exact get_name_ne_zero a (hc ▸ hg)
            | cons b rest' =>
              cases hcp : collect_params (a :: b :: rest') with
              | ok nts =>
                obtain ⟨ns, ts⟩ := nts
                simp [process_method, hrec, hinputs, hcp] at hc
              | error e =>
                simp [process_method, hrec, hinputs, hcp] at hc
                exact collect_params_ne_zero (a :: b :: rest') (hc ▸ hcp)

/-- Witness for C9 at a concrete one-input signature. -/
theorem zero_parameters_unreachable_witness :
    1 ≤ (Signature.mk "length" [.receiverArg true false]).inputs.length ∧
    process_method ⟨"length", [.receiverArg true false]⟩ ≠
      .error .zeroParameters :=
  ⟨zero_parameters_unreachable.1 ⟨"length", [.receiverArg true false]⟩
      (.receiverArg true false) rfl,
    zero_parameters_unreachable.2 ⟨"length", [.receiverArg true false]⟩⟩

/-- C5: every successfully extracted method falls in exactly one of the
three arity classes given by its count of inputs beyond the receiver, and
the generated wrapper binds the script-side argument accordingly: the zero
class binds `()` and ignores every incoming value, the one class binds the
single value directly under the declared parameter name and type, and the
many class destructures a fixed-size tuple positionally in declared
parameter order (which is also the order of the native call's arguments). -/
theorem method_arity_classes {V : Type} (sig : Signature) (info : MethodInfo)
    (h : process_method sig = .ok info) :
    (sig.inputs.tail.length = 0 ∧ (method_entry info).binder = .unitBinder ∧
      (∀ vs : List V, ArgBinder.unitBinder.bind vs = some []) ∧
      (method_entry info).callArgs = []) ∨
    (∃ n t, sig.inputs.tail = [FnArg.typedArg (.identPat n) t] ∧
      (method_entry info).binder = .singleBinder n t ∧
      (∀ v : V, (ArgBinder.singleBinder n t).bind [v] = some [(n, v)]) ∧
      (method_entry info).callArgs = [n]) ∨
    (2 ≤ sig.inputs.tail.length ∧
      ∃ ns ts, ns = sig.inputs.tail.filterMap arg_name ∧
        ts = sig.inputs.tail.filterMap arg_ty ∧
        ns.length = sig.inputs.tail.length ∧
        (method_entry info).binder = .tupleBinder ns ts ∧
        (∀ vs : List V, vs.length = ns.length →
          (ArgBinder.tupleBinder ns ts).bind vs = some (ns.zip vs)) ∧
        (method_entry info).callArgs = ns) := by
  cases hrec : sig.receiver with
  | none => simp [process_method, hrec] at h
  | some arg =>
    cases arg with
    | typedArg p ty => simp [process_method, hrec] at h
    | receiverArg r m =>
      cases r with
      | false => simp [process_method, hrec] at h
      | true =>
        obtain ⟨tail, hinputs⟩ := receiver_inv sig true m hrec
        cases tail with
        | nil =>
          simp [process_method, hrec, hinputs] at h
          refine Or.inl ⟨by rw [hinputs]; rfl, ?_, ?_, ?_⟩
          · rw [← h]; rfl
          · intro vs; rfl
          · rw [← h]; rfl
        | cons a rest =>
          cases rest with
          | nil =>
            cases hg : get_name_and_type_from_fn_arg a with
            | ok nt =>
              obtain ⟨n, t⟩ := nt
              simp [process_method, hrec, hinputs, hg] at h
              refine Or.inr (Or.inl ⟨n, t, ?_, ?_, ?_, ?_⟩)
              · rw [hinputs, List.tail_cons, get_name_ok_inv a n t hg]
              · rw [← h]; rfl
              · intro v; rfl
              · rw [← h]; rfl
            | error e => simp [process_method, hrec, hinputs, hg] at h
          | cons b rest' =>
            cases hcp : collect_params (a :: b :: rest') with
            | ok nts =>
              obtain ⟨ns, ts⟩ := nts
              simp [process_method, hrec, hinputs, hcp] at h
              obtain ⟨hn1, ht1, hl1, hl2⟩ :=
                collect_params_ok (a :: b :: rest') ns ts hcp
              refine Or.inr (Or.inr ⟨?_, ns, ts, ?_, ?_, ?_, ?_, ?_, ?_⟩)
              · rw [hinputs, List.tail_cons]
                simp
              · rw [hinputs, List.tail_cons]; exact hn1
              · rw [hinputs, List.tail_cons]; exact ht1
              · rw [hinputs, List.tail_cons]; exact hl1
              · rw [← h]; rfl
              · intro vs hlen
                simp [ArgBinder.bind, hlen]
              · rw [← h]; rfl
            | error e => simp [process_method, hrec, hinputs, hcp] at h

/-- Witness for C5 at the spec's `scale(factor)` example (one extra
parameter). -/
theorem method_arity_classes_witness :
    ((Signature.mk "scale"
        [.receiverArg true true,
         .typedArg (.identPat "factor") "f64"]).inputs.tail.length = 0 ∧
      (method_entry ⟨"scale", true, .oneP "factor" "f64"⟩).binder =
        .unitBinder ∧
      (∀ vs : List Nat, ArgBinder.unitBinder.bind vs = some []) ∧
      (method_entry ⟨"scale", true, .oneP "factor" "f64"⟩).callArgs = []) ∨
    (∃ n t, (Signature.mk "scale"
        [.receiverArg true true,
         .typedArg (.identPat "factor") "f64"]).inputs.tail =
          [FnArg.typedArg (.identPat n) t] ∧
      (method_entry ⟨"scale", true, .oneP "factor" "f64"⟩).binder =
        .singleBinder n t ∧
      (∀ v : Nat, (ArgBinder.singleBinder n t).bind [v] = some [(n, v)]) ∧
      (method_entry ⟨"scale", true, .oneP "factor" "f64"⟩).callArgs = [n]) ∨
    (2 ≤ (Signature.mk "scale"
        [.receiverArg true true,
         .typedArg (.identPat "factor") "f64"]).inputs.tail.length ∧
      ∃ ns ts, ns = (Signature.mk "scale"
          [.receiverArg true true,
           .typedArg (.identPat "factor") "f64"]).inputs.tail.filterMap
            arg_name ∧
        ts = (Signature.mk "scale"
          [.receiverArg true true,
           .typedArg (.identPat "factor") "f64"]).inputs.tail.filterMap
            arg_ty ∧
        ns.length = (Signature.mk "scale"
          [.receiverArg true true,
           .typedArg (.identPat "factor") "f64"]).inputs.tail.length ∧
        (method_entry ⟨"scale", true, .oneP "factor" "f64"⟩).binder =
          .tupleBinder ns ts ∧
        (∀ vs : List Nat, vs.length = ns.length →
          (ArgBinder.tupleBinder ns ts).bind vs = some (ns.zip vs)) ∧
        (method_entry ⟨"scale", true, .oneP "factor" "f64"⟩).callArgs = ns) :=
  method_arity_classes
    ⟨"scale", [.receiverArg true true, .typedArg (.identPat "factor") "f64"]⟩
    ⟨"scale", true, .oneP "factor" "f64"⟩ rfl

/-- The crate's `UserDataAttr` enum (`src/user_data.rs` lines 7-11). -/
inductive UserDataAttr where
  | MetaMethods
  | Methods
deriving DecidableEq, Repr

/-- `UserDataAttr::try_parse` (`src/user_data.rs` lines 17-28): only the two
identifiers `MetaMethods` and `Methods` are recognized. -/
def UserDataAttr.try_parse (path : String) : Except GenError UserDataAttr :=
  if path = "MetaMethods" then .ok .MetaMethods
  else if path = "Methods" then .ok .Methods
  else .error .invalidUserDataIdent

/-- The generator call `get_code` splices into the generated `add_methods`
body. -/
inductive RegistrationCall where
  | generateMetamethods
  | generateMethods
deriving DecidableEq, Repr

/-- `UserDataAttr::get_code` (`src/user_data.rs` lines 30-41). -/
def UserDataAttr.get_code : UserDataAttr → RegistrationCall
  | .MetaMethods => .generateMetamethods
  | .Methods => .generateMethods

/-- `attrs_to_user_data_attrs` (`src/user_data.rs` lines 44-61). -/
def attrs_to_user_data_attrs (attrs : List NestedMeta) :
    Except GenError (List UserDataAttr) :=
  attrs_fold UserDataAttr.try_parse .userDataNonPathAttr attrs []

/-- The item kinds `impl_user_data_attr_macro` accepts (impl blocks, structs
and enums), with the name the generated `impl rlua::UserData` targets. -/
def Item.user_data_name : Item → Option String
  | .implItem selfTy _ => some selfTy
  | .structItem n _ => some n
  | .enumItem n => some n
  | .otherItem => none

/-- `impl_user_data_attr_macro` (`src/user_data.rs` lines 63-99): reject
unsupported item kinds, parse the capability set, and emit an `add_methods`
body performing one generator call per selected capability (an empty
selection emits a valid impl whose body performs no calls). -/
def impl_user_data_attr_gen (item : Item) (attrs : List NestedMeta) :
    Except GenError (List RegistrationCall) :=
  match item.user_data_name with
  | none => .error .userDataItemKind
  | some _ =>
    match attrs_to_user_data_attrs attrs with
    | .ok uas => .ok (uas.map UserDataAttr.get_code)
    | .error e => .error e

/-- The canonical identifier of each `UserDataAttr` variant. -/
def user_data_ident : UserDataAttr → String
  | .MetaMethods => "MetaMethods"
  | .Methods => "Methods"

theorem user_data_parse_ok_eq (p : String) (a : UserDataAttr)
    (h : UserDataAttr.try_parse p = .ok a) : p = user_data_ident a := by
  unfold UserDataAttr.try_parse at h
  by_cases c1 : p = "MetaMethods"
  · rw [if_pos c1] at h; cases Except.ok.inj h; exact c1
  rw [if_neg c1] at h
  by_cases c2 : p = "Methods"
  · rw [if_pos c2] at h; cases Except.ok.inj h; exact c2
  rw [if_neg c2] at h
  cases h

theorem user_data_parse_ident (a : UserDataAttr) :
    UserDataAttr.try_parse (user_data_ident a) = .ok a := by
  cases a <;> rfl

theorem get_code_injective : Function.Injective UserDataAttr.get_code := by
  intro a b h
  cases a <;> cases b <;> first | rfl | cases h

theorem attrs_to_user_data_attrs_mem (attrs : List NestedMeta)
    (uas : List UserDataAttr)
    (h : attrs_to_user_data_attrs attrs = .ok uas) (a : UserDataAttr) :
    a ∈ uas ↔ ∃ p, NestedMeta.path p ∈ attrs ∧
      UserDataAttr.try_parse p = .ok a := by
  have hm := attrs_fold_mem UserDataAttr.try_parse .userDataNonPathAttr a
    attrs [] uas h
  simpa using hm

/-- C8 counterexample: the registration surface recognizes no `Index`
capability at all — requesting it is a hard parse failure for the whole
declaration rather than a wiring of the index generator, contradicting the
claimed capability set {index, methods, metamethods}. -/
theorem user_data_index_not_a_capability :
    UserDataAttr.try_parse "Index" = .error .invalidUserDataIdent ∧
    impl_user_data_attr_gen (.structItem "S" (.named ["x"]))
      [.path "Index"] = .error .invalidUserDataIdent :=
  ⟨rfl, rfl⟩

/-- C8 amended: the recognized capability identifiers are exactly
`MetaMethods` and `Methods` (there is no index capability on this surface);
for every selection list drawn from those, the emitted registration wires
exactly the selected generators' entry points, each once with duplicates
collapsed; selecting zero capabilities yields a valid registration whose
body performs no calls; and any unrecognized identifier (including `Index`)
is a hard validation failure for the whole declaration. -/
theorem user_data_registration_correct :
    (∀ s : String, (∃ a, UserDataAttr.try_parse s = .ok a) ↔
      (s = "MetaMethods" ∨ s = "Methods")) ∧
    (∀ (item : Item) (name : String), item.user_data_name = some name →
      impl_user_data_attr_gen item [] = .ok []) ∧
    (∀ (item : Item) (name : String) (attrs : List NestedMeta)
        (uas : List UserDataAttr),
      item.user_data_name = some name →
      attrs_to_user_data_attrs attrs = .ok uas →
      impl_user_data_attr_gen item attrs =
          .ok (uas.map UserDataAttr.get_code) ∧
        (uas.map UserDataAttr.get_code).Nodup ∧
        (∀ a : UserDataAttr,
          a.get_code ∈ uas.map UserDataAttr.get_code ↔
            NestedMeta.path (user_data_ident a) ∈ attrs)) ∧
    (∀ (item : Item) (attrs : List NestedMeta) (p : String),
      NestedMeta.path p ∈ attrs →
      (∀ a, UserDataAttr.try_parse p ≠ .ok a) →
      ∃ e, impl_user_data_attr_gen item attrs = .error e) := by
  refine ⟨?_, ?_, ?_, ?_⟩
  · intro s
    constructor
    · rintro ⟨a, ha⟩
      rw [user_data_parse_ok_eq s a ha]
      cases a
      · exact Or.inl rfl
      · exact Or.inr rfl
    · rintro (rfl | rfl)
      · exact ⟨.MetaMethods, rfl⟩
      · exact ⟨.Methods, rfl⟩
  · intro item name hname
    simp only [impl_user_data_attr_gen, hname, attrs_to_user_data_attrs,
      attrs_fold, List.map_nil]
  · intro item name attrs uas hname hattrs
    refine ⟨?_, ?_, ?_⟩
    · simp only [impl_user_data_attr_gen, hname, hattrs]
    · exact List.Nodup.map get_code_injective
        (attrs_fold_ok_nodup UserDataAttr.try_parse .userDataNonPathAttr
          attrs [] uas List.nodup_nil hattrs)
    · intro a
      rw [List.mem_map]
      constructor
      · rintro ⟨b, hb, heq⟩
        cases get_code_injective heq
        obtain ⟨p, hp, hpa⟩ :=
          (attrs_to_user_data_attrs_mem attrs uas hattrs a).mp hb
        rw [← user_data_parse_ok_eq p a hpa]
        exact hp
      · intro hmem
        refine ⟨a, ?_, rfl⟩
        exact (attrs_to_user_data_attrs_mem attrs uas hattrs a).mpr
          ⟨user_data_ident a, hmem, user_data_parse_ident a⟩
  · intro item attrs p hp hbad
    cases hname : item.user_data_name with
    | none =>
      exact ⟨.userDataItemKind, by
        simp only [impl_user_data_attr_gen, hname]⟩
    | some name =>
      cases hf : attrs_to_user_data_attrs attrs with
      | ok uas =>
        obtain ⟨a, ha⟩ := attrs_fold_paths_ok UserDataAttr.try_parse
          .userDataNonPathAttr p attrs [] uas hf hp
        exact absurd ha (hbad a)
      | error e =>
        exact ⟨e, by simp only [impl_user_data_attr_gen, hname, hf]⟩

/-- Witness for the amended C8: selecting `Methods` twice and `MetaMethods`
once wires each selected generator exactly once. -/
theorem user_data_registration_correct_witness :
    impl_user_data_attr_gen (.structItem "S" (.named ["x"]))
        [.path "Methods", .path "Methods", .path "MetaMethods"] =
      .ok (([UserDataAttr.Methods, UserDataAttr.MetaMethods]).map
        UserDataAttr.get_code) ∧
    (([UserDataAttr.Methods, UserDataAttr.MetaMethods]).map
      UserDataAttr.get_code).Nodup ∧
    (∀ a : UserDataAttr,
      a.get_code ∈ ([UserDataAttr.Methods, UserDataAttr.MetaMethods]).map
          UserDataAttr.get_code ↔
        NestedMeta.path (user_data_ident a) ∈
          ([.path "Methods", .path "Methods", .path "MetaMethods"] :
            List NestedMeta)) :=
  user_data_registration_correct.2.2.1 (.structItem "S" (.named ["x"])) "S"
    [.path "Methods", .path "Methods", .path "MetaMethods"]
    [.Methods, .MetaMethods] rfl (by decide)

end Rudeboy
